import Mathlib

set_option maxHeartbeats 1000000

/-!
Verification of the grpcfy RPC framework core against its specification.

The definitions below are shallow embeddings of the C++ sources:

* `src/core/include/grpcfy/core/PointerTagging.h` — pointer tagging;
* `src/server/include/grpcfy/server/ServiceEngine.h` — queue dispatcher unpacking;
* `src/server/include/grpcfy/server/detail/ServerStreamMethodContext.h` — server stream FSM;
* `src/client/include/grpcfy/client/detail/ServerStreamCallContext.h` — client stream FSM;
* `src/client/include/grpcfy/client/detail/SingularCallContext.h` — client singular FSM;
* `src/client/include/grpcfy/client/ClientEngine.h` — client engine;
* `src/client/include/grpcfy/client/Options.h` — client options.

Machine words are modelled as `Nat` bounded by `2 ^ 64`; pointers as addresses.
-/

namespace Grpcfy

/-! ## Pointer tagging (core/PointerTagging.h and ServiceEngine.h::processQueue) -/

/-- Width of `uintptr_t` on the modelled platform. -/
def wordBits : Nat := 64

/-- Source `EnablePointerTagThis::kFlagsMask = 0b11UL`. -/
def kFlagsMask : Nat := 0b11

/-- Source `tagify(flags)`: `reinterpret_cast<Pointer>(this) | flags.to_ulong()`.
The context address is the first argument. -/
def tagify (ctx flags : Nat) : Nat := ctx ||| flags

/-- Source `~kFlagsMask` evaluated on a 64-bit machine word. -/
def notFlagsMask : Nat := 2 ^ wordBits - 1 - kFlagsMask

/-- Source `ServiceEngine::processQueue`: `context = memory_address & ~kFlagsMask`. -/
def unpackContext (tag : Nat) : Nat := tag &&& notFlagsMask

/-- Source `ServiceEngine::processQueue`: `flags = memory_address & kFlagsMask`. -/
def unpackFlags (tag : Nat) : Nat := tag &&& kFlagsMask

lemma notFlagsMask_eq_shift : notFlagsMask = (2 ^ 62 - 1) <<< 2 := by
  norm_num [notFlagsMask, wordBits, kFlagsMask, Nat.shiftLeft_eq]

lemma testBit_notFlagsMask (i : Nat) :
    notFlagsMask.testBit i = (decide (2 ≤ i) && decide (i < 64)) := by
  rw [notFlagsMask_eq_shift, Nat.testBit_shiftLeft, Nat.testBit_two_pow_sub_one]
  rcases Nat.lt_or_ge i 2 with h2 | h2
  · simp [Nat.not_le.mpr h2]
  · have : i - 2 < 62 ↔ i < 64 := by omega
    simp [h2, this]

/-- Claim **C1.** Tag round-trip: for every context address `c` aligned to at least 4
and below `2 ^ 64`, and every 2-bit flag value `f`, the dispatcher's unpacking
`(tag & ~mask, tag & mask)` of `tagify c f` yields exactly `(c, f)`. -/
theorem tagify_roundtrip (ctx flags : Nat) (hctx : ctx < 2 ^ 64)
    (halign : 4 ∣ ctx) (hf : flags < 4) :
    unpackContext (tagify ctx flags) = ctx ∧ unpackFlags (tagify ctx flags) = flags := by
  obtain ⟨q, rfl⟩ := halign
  have hshift : 4 * q = q <<< 2 := by
    rw [Nat.shiftLeft_eq]; ring
  constructor
  · apply Nat.eq_of_testBit_eq
    intro i
    rw [unpackContext, tagify, Nat.testBit_land, Nat.testBit_lor, testBit_notFlagsMask,
      hshift, Nat.testBit_shiftLeft]
    rcases Nat.lt_or_ge i 2 with h2 | h2
    · simp [Nat.not_le.mpr h2]
    · rcases Nat.lt_or_ge i 64 with h64 | h64
      · have h4le : (4 : Nat) ≤ 2 ^ i := by
          have := Nat.pow_le_pow_right (show 0 < 2 by norm_num) h2
          simpa using this
        have hflt : flags < 2 ^ i := lt_of_lt_of_le hf h4le
        simp [h2, h64, Nat.testBit_eq_false_of_lt hflt]
      · have hqlt : 4 * q < 2 ^ 64 := hctx
        have : q < 2 ^ (i - 2) := by
          have h4 : (4 : Nat) * q < 4 * 2 ^ 62 := by
            calc 4 * q < 2 ^ 64 := hqlt
            _ = 4 * 2 ^ 62 := by norm_num
          have hq62 : q < 2 ^ 62 := by omega
          exact lt_of_lt_of_le hq62 (Nat.pow_le_pow_right (by norm_num) (by omega))
        simp [h2, Nat.not_lt.mpr h64, Nat.testBit_eq_false_of_lt this]
  · apply Nat.eq_of_testBit_eq
    intro i
    rw [unpackFlags, tagify, Nat.testBit_land, Nat.testBit_lor, hshift,
      Nat.testBit_shiftLeft]
    have hmask : kFlagsMask = 2 ^ 2 - 1 := by norm_num [kFlagsMask]
    rw [hmask, Nat.testBit_two_pow_sub_one]
    rcases Nat.lt_or_ge i 2 with h2 | h2
    · simp [Nat.not_le.mpr h2, h2]
    · have h4le : (4 : Nat) ≤ 2 ^ i := by
        have := Nat.pow_le_pow_right (show 0 < 2 by norm_num) h2
        simpa using this
      have hflt : flags < 2 ^ i := lt_of_lt_of_le hf h4le
      simp [h2, Nat.not_lt.mpr h2, Nat.testBit_eq_false_of_lt hflt]

/-- Witness for `tagify_roundtrip` at `ctx = 8`, `flags = 3`. -/
theorem tagify_roundtrip_witness :
    (8 : Nat) < 2 ^ 64 ∧ (4 : Nat) ∣ 8 ∧ (3 : Nat) < 4 ∧
      unpackContext (tagify 8 3) = 8 ∧ unpackFlags (tagify 8 3) = 3 := by
  refine ⟨by norm_num, by norm_num, by norm_num, ?_⟩
  exact tagify_roundtrip 8 3 (by norm_num) (by norm_num) (by norm_num)

/-! ## Server stream FSM (detail/ServerStreamMethodContext.h)

Messages are modelled as `Nat` payloads; `grpc::Status` keeps its code and
message. The FSM's observable effects — `stream_writer.Write`,
`stream_writer.Finish`, `notification_alarm.Set` and `context->suicide()` —
are returned explicitly by each embedded member function. -/

/-- Source `ServerStreamMethodContext::State`. -/
inductive StreamState
  | StandingBy
  | AwaitingRequest
  | AwaitingNotifications
  | AwaitingAlarm
  | AwaitingWrite
  | AwaitingFinish
  | Cancelled
deriving DecidableEq

/-- Source `grpc::Status`: a code plus a message. `OK = 0`, `CANCELLED = 1`. -/
structure GrpcStatus where
  code : Nat
  msg : String
deriving DecidableEq

def GrpcStatus.isOk (s : GrpcStatus) : Bool := s.code == 0

def statusOk : GrpcStatus := ⟨0, ""⟩

/-- Source `grpc::StatusCode::CANCELLED`. -/
def kCancelledCode : Nat := 1

/-- Source `Impl::NotificationOneOf = outcome::result<OutboundNotification, grpc::Status>`. -/
inductive NotificationOneOf
  | msg (m : Nat)
  | status (s : GrpcStatus)
deriving DecidableEq

/-- Source `operator bool()` of the outcome result: true iff it holds a message. -/
def NotificationOneOf.hasValue : NotificationOneOf → Bool
  | .msg _ => true
  | .status _ => false

/-- Mutable state of `ServerStreamMethodContext::Impl` (the fields guarded by
`mutex`). -/
structure StreamImpl where
  state : StreamState
  notifications_queue : List NotificationOneOf
  alarm_count : Nat
  drop_notifications : Bool
deriving DecidableEq

/-- A call issued on `stream_writer`. -/
inductive WireOp
  | write (m : Nat)
  | finish (s : GrpcStatus)
deriving DecidableEq

/-- Source `Impl::post`: returns the new state and whether `notification_alarm.Set`
was invoked. Asserts are modelled as the release-build no-ops the source
falls through to. -/
def post (s : StreamImpl) (n : NotificationOneOf) : StreamImpl × Bool :=
  if s.drop_notifications then (s, false)
  else
    let s := if n.hasValue then s else { s with drop_notifications := true }
    match s.state with
    | .StandingBy | .AwaitingRequest | .AwaitingFinish => (s, false)
    | .AwaitingAlarm | .AwaitingWrite =>
        ({ s with notifications_queue := s.notifications_queue ++ [n] }, false)
    | .AwaitingNotifications =>
        ({ s with state := .AwaitingAlarm,
                  alarm_count := s.alarm_count + 1,
                  notifications_queue := s.notifications_queue ++ [n] }, true)
    | .Cancelled => (s, false)

/-- Source `Impl::processPendingNotification`: pop the queue head; a message starts a
`Write`, a status starts a `Finish`. -/
def processPendingNotification (s : StreamImpl) : StreamImpl × List WireOp :=
  match s.notifications_queue with
  | [] => (s, [])
  | n :: rest =>
    match n with
    | .msg m => ({ s with state := .AwaitingWrite, notifications_queue := rest }, [.write m])
    | .status st => ({ s with state := .AwaitingFinish, notifications_queue := rest }, [.finish st])

/-- Source `Impl::onAlarm`: decrement the alarm counter, then process the head. -/
def onAlarm (s : StreamImpl) : StreamImpl × List WireOp :=
  processPendingNotification { s with alarm_count := s.alarm_count - 1 }

/-- Source `Impl::onWrite`: back to AwaitingNotifications when drained, otherwise
process the next pending notification. -/
def onWrite (s : StreamImpl) : StreamImpl × List WireOp :=
  if s.notifications_queue.isEmpty then ({ s with state := .AwaitingNotifications }, [])
  else processPendingNotification s

/-- Source `Impl::onCancelled`: suicide on the last pending alarm, otherwise drain
one alarm and clear the queue. The boolean is `context->suicide()`. -/
def onCancelled (s : StreamImpl) : StreamImpl × Bool :=
  if s.alarm_count ≤ 1 then (s, true)
  else ({ s with alarm_count := s.alarm_count - 1, notifications_queue := [] }, false)

/-- Source `Tag::AsyncNotifyWhenDone = 1`. -/
def kAsyncNotifyWhenDoneTag : Nat := 1

/-- Source `Impl::onFinished`: the AsyncNotifyWhenDone tag is a no-op, any other
completion destroys the context. -/
def onFinished (s : StreamImpl) (flags : Nat) : StreamImpl × Bool :=
  if flags == kAsyncNotifyWhenDoneTag then (s, false) else (s, true)

/-- Source `Impl::onRequest`: spawn a replacement FSM, move to AwaitingNotifications
and invoke the user callback (the external effects are outside this state). -/
def onRequest (s : StreamImpl) : StreamImpl :=
  { s with state := .AwaitingNotifications }

/-- Result of one `Impl::onEvent` call: the new state, the `stream_writer`
calls issued, and whether `context->suicide()` ran. -/
structure EventResult where
  impl : StreamImpl
  ops : List WireOp
  suicide : Bool
deriving DecidableEq

/-- Source `Impl::onEvent(ok, flags)`; `cancelled` is the value of
`server_context.IsCancelled()` observed under the lock. -/
def onEvent (s : StreamImpl) (ok cancelled : Bool) (flags : Nat) : EventResult :=
  if !ok then ⟨s, [], true⟩
  else
    let s := if cancelled then { s with state := .Cancelled, drop_notifications := true } else s
    match s.state with
    | .AwaitingNotifications | .StandingBy => ⟨s, [], false⟩
    | .AwaitingRequest => ⟨onRequest s, [], false⟩
    | .AwaitingAlarm =>
        let r := onAlarm s
        ⟨r.1, r.2, false⟩
    | .AwaitingWrite =>
        let r := onWrite s
        ⟨r.1, r.2, false⟩
    | .AwaitingFinish =>
        let r := onFinished s flags
        ⟨r.1, [], r.2⟩
    | .Cancelled =>
        let r := onCancelled s
        ⟨r.1, [], r.2⟩

/-! ### Serialized operation sequences on one stream FSM

Every `post` and `onEvent` runs under the FSM's mutex, so an execution is a
linear sequence of these operations. -/

/-- One serialized operation on the FSM. -/
inductive StreamOp
  | push (n : NotificationOneOf)
  | event (ok cancelled : Bool) (flags : Nat)

/-- Run one operation; the boolean records whether `notification_alarm.Set`
was invoked (only `post` ever calls it in the source). -/
def applyStreamOp (s : StreamImpl) : StreamOp → StreamImpl × Bool
  | .push n => post s n
  | .event ok c f => ((onEvent s ok c f).impl, false)

/-- Run a sequence of serialized operations, counting how many alarms the
sequence armed. -/
def runStreamOps (s : StreamImpl) : List StreamOp → StreamImpl × Nat
  | [] => (s, 0)
  | op :: rest =>
    let r := applyStreamOp s op
    let r' := runStreamOps r.1 rest
    (r'.1, (if r.2 then 1 else 0) + r'.2)

lemma post_drop_noop (s : StreamImpl) (n : NotificationOneOf)
    (h : s.drop_notifications = true) : post s n = (s, false) := by
  simp [post, h]

lemma processPendingNotification_drop (s : StreamImpl) :
    (processPendingNotification s).1.drop_notifications = s.drop_notifications := by
  unfold processPendingNotification
  rcases s.notifications_queue with _ | ⟨_ | _, _⟩ <;> simp

lemma onAlarm_drop (s : StreamImpl) :
    (onAlarm s).1.drop_notifications = s.drop_notifications := by
  unfold onAlarm
  rw [processPendingNotification_drop]

lemma onWrite_drop (s : StreamImpl) :
    (onWrite s).1.drop_notifications = s.drop_notifications := by
  unfold onWrite
  split
  · rfl
  · rw [processPendingNotification_drop]

lemma onCancelled_drop (s : StreamImpl) :
    (onCancelled s).1.drop_notifications = s.drop_notifications := by
  unfold onCancelled
  split <;> rfl

lemma onFinished_drop (s : StreamImpl) (f : Nat) :
    (onFinished s f).1.drop_notifications = s.drop_notifications := by
  unfold onFinished
  split <;> rfl

lemma onEvent_drop_mono (s : StreamImpl) (ok c : Bool) (f : Nat)
    (h : s.drop_notifications = true) :
    (onEvent s ok c f).impl.drop_notifications = true := by
  cases ok with
  | false => simpa [onEvent] using h
  | true =>
    cases c with
    | true => simp [onEvent, onCancelled_drop]
    | false =>
      cases hst : s.state with
      | StandingBy => simp [onEvent, hst, h]
      | AwaitingRequest => simp [onEvent, hst, onRequest, h]
      | AwaitingNotifications => simp [onEvent, hst, h]
      | AwaitingAlarm => simp [onEvent, hst, onAlarm_drop, h]
      | AwaitingWrite => simp [onEvent, hst, onWrite_drop, h]
      | AwaitingFinish => simp [onEvent, hst, onFinished_drop, h]
      | Cancelled => simp [onEvent, hst, onCancelled_drop, h]

/-- Claim **C4.** Once the drop-notifications flag is true, no subsequent serialized
operation — push, close (both are `post`) or completion-event handling — arms
a new alarm on the completion queue. -/
theorem drop_notifications_no_alarm (s : StreamImpl) (ops : List StreamOp)
    (h : s.drop_notifications = true) : (runStreamOps s ops).2 = 0 := by
  induction ops generalizing s with
  | nil => rfl
  | cons op rest ih =>
    cases op with
    | push n =>
      simp [runStreamOps, applyStreamOp, post_drop_noop s n h, ih s h]
    | event ok c f =>
      simp [runStreamOps, applyStreamOp,
        ih ((onEvent s ok c f).impl) (onEvent_drop_mono s ok c f h)]

/-- Witness for `drop_notifications_no_alarm`: a closed stream drops a push
and an event without arming anything. -/
theorem drop_notifications_no_alarm_witness :
    (StreamImpl.mk .AwaitingNotifications [] 0 true).drop_notifications = true ∧
      (runStreamOps (StreamImpl.mk .AwaitingNotifications [] 0 true)
        [.push (.msg 5), .event true false 0, .push (.status statusOk)]).2 = 0 :=
  ⟨rfl, drop_notifications_no_alarm _ _ rfl⟩

/-! ### Cancellation drain (C3) -/

/-- Deliver completions one by one to a context whose `server_context`
reports `IsCancelled() = true`, stopping when the context suicides. The j-th
delivered completion carries flags `fl j`; `ok` is true throughout. -/
def drainCancelled (fl : Nat → Nat) (s : StreamImpl) : Nat → EventResult
  | 0 => ⟨s, [], false⟩
  | j + 1 =>
    let r := onEvent s true true (fl j)
    if r.suicide then r
    else
      let r' := drainCancelled fl r.impl j
      ⟨r'.impl, r.ops ++ r'.ops, r'.suicide⟩

lemma drainCancelled_succ (fl : Nat → Nat) (s : StreamImpl) (j : Nat) :
    drainCancelled fl s (j + 1) =
      if (onEvent s true true (fl j)).suicide
      then onEvent s true true (fl j)
      else ⟨(drainCancelled fl (onEvent s true true (fl j)).impl j).impl,
            (onEvent s true true (fl j)).ops
              ++ (drainCancelled fl (onEvent s true true (fl j)).impl j).ops,
            (drainCancelled fl (onEvent s true true (fl j)).impl j).suicide⟩ := rfl

lemma drainCancelled_step_alive (fl : Nat → Nat) (s s' : StreamImpl) (j : Nat)
    (ops : List WireOp) (h : onEvent s true true (fl j) = ⟨s', ops, false⟩) :
    drainCancelled fl s (j + 1) =
      ⟨(drainCancelled fl s' j).impl, ops ++ (drainCancelled fl s' j).ops,
        (drainCancelled fl s' j).suicide⟩ := by
  rw [drainCancelled_succ, h]
  simp

lemma onEvent_cancelled_eq (s : StreamImpl) (f : Nat) :
    onEvent s true true f =
      if s.alarm_count ≤ 1 then
        ⟨⟨.Cancelled, s.notifications_queue, s.alarm_count, true⟩, [], true⟩
      else
        ⟨⟨.Cancelled, [], s.alarm_count - 1, true⟩, [], false⟩ := by
  simp only [onEvent, Bool.not_true, Bool.false_eq_true, if_false, if_pos rfl]
  simp [onCancelled]
  split <;> rfl

lemma drainCancelled_spec (fl : Nat → Nat) (k : Nat) :
    ∀ s : StreamImpl, s.alarm_count = k + 1 →
      (drainCancelled fl s (k + 1)).suicide = true ∧
      (drainCancelled fl s (k + 1)).ops = [] ∧
      ∀ j, j < k + 1 → (drainCancelled fl s j).suicide = false := by
  induction k with
  | zero =>
    intro s hc
    have h1 : onEvent s true true (fl 0) =
        ⟨⟨.Cancelled, s.notifications_queue, s.alarm_count, true⟩, [], true⟩ := by
      rw [onEvent_cancelled_eq]
      simp [hc]
    refine ⟨?_, ?_, ?_⟩
    · simp [drainCancelled, h1]
    · simp [drainCancelled, h1]
    · intro j hj
      interval_cases j
      rfl
  | succ k ih =>
    intro s hc
    have hgt : ¬ s.alarm_count ≤ 1 := by omega
    have h1 : ∀ j : Nat, onEvent s true true (fl j) =
        ⟨⟨.Cancelled, [], s.alarm_count - 1, true⟩, [], false⟩ := fun j => by
      rw [onEvent_cancelled_eq, if_neg hgt]
    have hc' : (StreamImpl.mk .Cancelled [] (s.alarm_count - 1) true).alarm_count = k + 1 := by
      simp only [StreamImpl.mk.injEq]
      omega
    obtain ⟨hsui, hops, hlow⟩ := ih _ hc'
    refine ⟨?_, ?_, ?_⟩
    · rw [drainCancelled_step_alive fl s _ (k + 1) [] (h1 (k + 1))]
      simpa using hsui
    · rw [drainCancelled_step_alive fl s _ (k + 1) [] (h1 (k + 1))]
      simpa using hops
    · intro j hj
      cases j with
      | zero => rfl
      | succ j' =>
        rw [drainCancelled_step_alive fl s _ j' [] (h1 j')]
        simpa using hlow j' (by omega)

/-- Claim **C3.** If a server-stream FSM observes cancellation while `k ≥ 1` alarm
tags are outstanding, then over the subsequent completion deliveries it
consumes exactly `k` completions before self-destroying — it is still alive
after any `j < k` of them and suicides on the k-th — and no `stream_writer`
call (in particular no `Write`) is issued on any of these events. -/
theorem cancellation_drain (fl : Nat → Nat) (s : StreamImpl) (k : Nat)
    (hk : 1 ≤ k) (hcount : s.alarm_count = k) :
    (drainCancelled fl s k).suicide = true ∧
    (drainCancelled fl s k).ops = [] ∧
    ∀ j, j < k → (drainCancelled fl s j).suicide = false := by
  obtain ⟨k', rfl⟩ : ∃ k', k = k' + 1 := ⟨k - 1, by omega⟩
  exact drainCancelled_spec fl k' s hcount

/-- Witness for `cancellation_drain`: two outstanding alarms drain in exactly
two completions with no writer calls. -/
theorem cancellation_drain_witness :
    (1 ≤ 2 ∧ (StreamImpl.mk .AwaitingAlarm [.msg 7] 2 false).alarm_count = 2) ∧
      (drainCancelled (fun _ => 0) (StreamImpl.mk .AwaitingAlarm [.msg 7] 2 false) 2).suicide
          = true ∧
      (drainCancelled (fun _ => 0) (StreamImpl.mk .AwaitingAlarm [.msg 7] 2 false) 2).ops = [] ∧
      ∀ j, j < 2 →
        (drainCancelled (fun _ => 0) (StreamImpl.mk .AwaitingAlarm [.msg 7] 2 false) j).suicide
          = false :=
  ⟨⟨by norm_num, rfl⟩, cancellation_drain (fun _ => 0) _ 2 (by norm_num) rfl⟩

/-! ### Stream FIFO (C2)

A small operational model of the completion queue around one server-stream
FSM: user `post` calls interleave arbitrarily with completion deliveries.
Arming an alarm, a `Write` or a `Finish` places a completion in flight; the
`AsyncNotifyWhenDone` completion becomes deliverable once `Finish` is armed.
A delivery may pick any in-flight completion, over-approximating every queue
ordering. Per the claim, every completion is delivered with `ok = true` and
`IsCancelled()` is never observed. -/

/-- A completion in flight on the queue, identified by what armed it. -/
inductive Completion
  | alarmDone
  | writeDone
  | finishDone
  | notifyDone
deriving DecidableEq

/-- Tag flags carried by each completion: only the `AsyncNotifyWhenDone`
registration is tagged. -/
def Completion.flags : Completion → Nat
  | .notifyDone => kAsyncNotifyWhenDoneTag
  | _ => 0

/-- Completions armed by the `stream_writer` calls of one event. -/
def completionsOf : List WireOp → List Completion
  | [] => []
  | .write _ :: rest => .writeDone :: completionsOf rest
  | .finish _ :: rest => .finishDone :: .notifyDone :: completionsOf rest

/-- The FSM together with its completion queue and the wire trace. -/
structure Sys where
  impl : StreamImpl
  script : List NotificationOneOf
  inflight : List Completion
  trace : List WireOp
  dead : Bool
deriving DecidableEq

/-- A user thread runs the next scripted `post`. -/
def applyUser (sys : Sys) (n : NotificationOneOf) (rest : List NotificationOneOf) : Sys :=
  let r := post sys.impl n
  { sys with
    impl := r.fst,
    script := rest,
    inflight := sys.inflight ++ (if r.snd then [.alarmDone] else []) }

/-- The dispatcher delivers one in-flight completion with `ok = true` and no
cancellation observed. -/
def applyDeliver (sys : Sys) (c : Completion) (rest : List Completion) : Sys :=
  let r := onEvent sys.impl true false c.flags
  { impl := r.impl, script := sys.script,
    inflight := rest ++ completionsOf r.ops,
    trace := sys.trace ++ r.ops, dead := r.suicide }

/-- One interleaving step: either the next user `post` runs, or any in-flight
completion is delivered. -/
inductive SysStep : Sys → Sys → Prop
  | user (sys : Sys) (n : NotificationOneOf) (rest : List NotificationOneOf)
      (hdead : sys.dead = false) (hs : sys.script = n :: rest) :
      SysStep sys (applyUser sys n rest)
  | deliver (sys : Sys) (c : Completion) (l₁ l₂ : List Completion)
      (hdead : sys.dead = false) (hin : sys.inflight = l₁ ++ c :: l₂) :
      SysStep sys (applyDeliver sys c (l₁ ++ l₂))

/-- Initial configuration for the claim: the FSM just delivered the request
to user code (state AwaitingNotifications), and the user will push the
messages `ms` in order and then close with OK. -/
def initSys (ms : List Nat) : Sys :=
  { impl := ⟨.AwaitingNotifications, [], 0, false⟩,
    script := ms.map NotificationOneOf.msg ++ [.status statusOk],
    inflight := [], trace := [], dead := false }

def SysReachable (ms : List Nat) (sys : Sys) : Prop :=
  Relation.ReflTransGen SysStep (initSys ms) sys

/-- Invariant: FSM waiting for notifications, queue drained. -/
def InvAN (ms : List Nat) (sys : Sys) : Prop :=
  ∃ done rest, ms = done ++ rest ∧
    sys.impl = ⟨.AwaitingNotifications, [], 0, false⟩ ∧
    sys.script = rest.map NotificationOneOf.msg ++ [.status statusOk] ∧
    sys.inflight = [] ∧
    sys.trace = done.map WireOp.write

/-- Shared queue shape for the alarm/write phases: `done` already written,
`pend` buffered in the FSM queue, `rest` still with the user; the terminal
status sits at the queue tail once `close` ran. -/
def QueueShape (ms : List Nat) (sys : Sys) (st : StreamState) (ac : Nat) : Prop :=
  ∃ done pend rest,
    sys.trace = done.map WireOp.write ∧
    ((ms = done ++ pend ++ rest ∧
        sys.impl = ⟨st, pend.map NotificationOneOf.msg, ac, false⟩ ∧
        sys.script = rest.map NotificationOneOf.msg ++ [.status statusOk] ∧
        (st = .AwaitingAlarm → pend ≠ []))
     ∨ (ms = done ++ pend ∧ rest = [] ∧
        sys.impl = ⟨st, pend.map NotificationOneOf.msg ++ [.status statusOk], ac, true⟩ ∧
        sys.script = []))

def InvAlarm (ms : List Nat) (sys : Sys) : Prop :=
  sys.inflight = [.alarmDone] ∧ QueueShape ms sys .AwaitingAlarm 1

def InvWrite (ms : List Nat) (sys : Sys) : Prop :=
  sys.inflight = [.writeDone] ∧ QueueShape ms sys .AwaitingWrite 0

def InvFinish (ms : List Nat) (sys : Sys) : Prop :=
  sys.impl = ⟨.AwaitingFinish, [], 0, true⟩ ∧
  sys.script = [] ∧
  (sys.inflight = [.finishDone, .notifyDone] ∨ sys.inflight = [.finishDone]) ∧
  sys.trace = ms.map WireOp.write ++ [.finish statusOk]

/-- The full safety invariant of the no-cancel run. -/
def SysInv (ms : List Nat) (sys : Sys) : Prop :=
  (sys.dead = true ∧ sys.trace = ms.map WireOp.write ++ [.finish statusOk])
  ∨ (sys.dead = false ∧
      (InvAN ms sys ∨ InvAlarm ms sys ∨ InvWrite ms sys ∨ InvFinish ms sys))

section C2Lemmas

lemma post_AN_msg (q : List NotificationOneOf) (ac : Nat) (m : Nat) :
    post ⟨.AwaitingNotifications, q, ac, false⟩ (.msg m) =
      (⟨.AwaitingAlarm, q ++ [.msg m], ac + 1, false⟩, true) := by
  simp [post, NotificationOneOf.hasValue]

lemma post_AN_close (q : List NotificationOneOf) (ac : Nat) (st : GrpcStatus) :
    post ⟨.AwaitingNotifications, q, ac, false⟩ (.status st) =
      (⟨.AwaitingAlarm, q ++ [.status st], ac + 1, true⟩, true) := by
  simp [post, NotificationOneOf.hasValue]

lemma post_Alarm_msg (q : List NotificationOneOf) (ac : Nat) (m : Nat) :
    post ⟨.AwaitingAlarm, q, ac, false⟩ (.msg m) =
      (⟨.AwaitingAlarm, q ++ [.msg m], ac, false⟩, false) := by
  simp [post, NotificationOneOf.hasValue]

lemma post_Alarm_close (q : List NotificationOneOf) (ac : Nat) (st : GrpcStatus) :
    post ⟨.AwaitingAlarm, q, ac, false⟩ (.status st) =
      (⟨.AwaitingAlarm, q ++ [.status st], ac, true⟩, false) := by
  simp [post, NotificationOneOf.hasValue]

lemma post_Write_msg (q : List NotificationOneOf) (ac : Nat) (m : Nat) :
    post ⟨.AwaitingWrite, q, ac, false⟩ (.msg m) =
      (⟨.AwaitingWrite, q ++ [.msg m], ac, false⟩, false) := by
  simp [post, NotificationOneOf.hasValue]

lemma post_Write_close (q : List NotificationOneOf) (ac : Nat) (st : GrpcStatus) :
    post ⟨.AwaitingWrite, q, ac, false⟩ (.status st) =
      (⟨.AwaitingWrite, q ++ [.status st], ac, true⟩, false) := by
  simp [post, NotificationOneOf.hasValue]

lemma onEvent_Alarm_msg (m : Nat) (rest : List NotificationOneOf) (ac : Nat) (d : Bool) :
    onEvent ⟨.AwaitingAlarm, .msg m :: rest, ac, d⟩ true false 0 =
      ⟨⟨.AwaitingWrite, rest, ac - 1, d⟩, [.write m], false⟩ := by
  simp [onEvent, onAlarm, processPendingNotification]

lemma onEvent_Alarm_close (st : GrpcStatus) (rest : List NotificationOneOf) (ac : Nat)
    (d : Bool) :
    onEvent ⟨.AwaitingAlarm, .status st :: rest, ac, d⟩ true false 0 =
      ⟨⟨.AwaitingFinish, rest, ac - 1, d⟩, [.finish st], false⟩ := by
  simp [onEvent, onAlarm, processPendingNotification]

lemma onEvent_Write_empty (ac : Nat) (d : Bool) :
    onEvent ⟨.AwaitingWrite, [], ac, d⟩ true false 0 =
      ⟨⟨.AwaitingNotifications, [], ac, d⟩, [], false⟩ := by
  simp [onEvent, onWrite]

lemma onEvent_Write_msg (m : Nat) (rest : List NotificationOneOf) (ac : Nat) (d : Bool) :
    onEvent ⟨.AwaitingWrite, .msg m :: rest, ac, d⟩ true false 0 =
      ⟨⟨.AwaitingWrite, rest, ac, d⟩, [.write m], false⟩ := by
  simp [onEvent, onWrite, processPendingNotification]

lemma onEvent_Write_close (st : GrpcStatus) (rest : List NotificationOneOf) (ac : Nat)
    (d : Bool) :
    onEvent ⟨.AwaitingWrite, .status st :: rest, ac, d⟩ true false 0 =
      ⟨⟨.AwaitingFinish, rest, ac, d⟩, [.finish st], false⟩ := by
  simp [onEvent, onWrite, processPendingNotification]

lemma onEvent_Finish_notify (q : List NotificationOneOf) (ac : Nat) (d : Bool) :
    onEvent ⟨.AwaitingFinish, q, ac, d⟩ true false 1 =
      ⟨⟨.AwaitingFinish, q, ac, d⟩, [], false⟩ := by
  simp [onEvent, onFinished, kAsyncNotifyWhenDoneTag]

lemma onEvent_Finish_done (q : List NotificationOneOf) (ac : Nat) (d : Bool) :
    onEvent ⟨.AwaitingFinish, q, ac, d⟩ true false 0 =
      ⟨⟨.AwaitingFinish, q, ac, d⟩, [], true⟩ := by
  simp [onEvent, onFinished, kAsyncNotifyWhenDoneTag]

lemma eq_singleton_decomp {α : Type} {a c : α} {l₁ l₂ : List α}
    (h : l₁ ++ c :: l₂ = [a]) : l₁ = [] ∧ c = a ∧ l₂ = [] := by
  cases l₁ with
  | nil => simpa using h
  | cons x xs =>
    exfalso
    simp only [List.cons_append, List.cons.injEq] at h
    exact absurd h.2 (by simp)

lemma eq_pair_decomp {α : Type} {a b c : α} {l₁ l₂ : List α}
    (h : l₁ ++ c :: l₂ = [a, b]) :
    (l₁ = [] ∧ c = a ∧ l₂ = [b]) ∨ (l₁ = [a] ∧ c = b ∧ l₂ = []) := by
  cases l₁ with
  | nil => left; simpa using h
  | cons x xs =>
    cases xs with
    | nil =>
      right
      simp only [List.cons_append, List.nil_append, List.cons.injEq] at h
      obtain ⟨rfl, rfl, rfl⟩ := h
      exact ⟨rfl, rfl, rfl⟩
    | cons y ys =>
      exfalso
      simp only [List.cons_append, List.cons.injEq] at h
      exact absurd h.2.2 (by simp)

end C2Lemmas

lemma sysStep_preserves {ms : List Nat} {sys sys' : Sys}
    (hInv : SysInv ms sys) (h : SysStep sys sys') : SysInv ms sys' := by
  cases h with
  | user n rest hdead hs =>
    rcases hInv with ⟨hd, _⟩ | ⟨_, hact⟩
    · rw [hdead] at hd; cases hd
    rcases hact with hAN | hAl | hW | hF
    · obtain ⟨done, rest0, hms, himpl, hscript, hinf, htr⟩ := hAN
      rw [hscript] at hs
      cases rest0 with
      | nil =>
        obtain ⟨rfl, rfl⟩ : NotificationOneOf.status statusOk = n ∧ [] = rest := by
          simpa using hs
        have hcomp : applyUser sys (.status statusOk) [] =
            ⟨⟨.AwaitingAlarm, [.status statusOk], 1, true⟩, [], [.alarmDone],
              done.map WireOp.write, false⟩ := by
          simp [applyUser, himpl, post_AN_close, hinf, htr, hdead]
        rw [hcomp]
        exact Or.inr ⟨rfl, Or.inr (Or.inl ⟨rfl, done, [], [], rfl,
          Or.inr ⟨by simpa using hms, rfl, rfl, rfl⟩⟩)⟩
      | cons m tl =>
        obtain ⟨rfl, rfl⟩ : NotificationOneOf.msg m = n ∧
            tl.map NotificationOneOf.msg ++ [.status statusOk] = rest := by
          simpa using hs
        have hcomp : applyUser sys (.msg m) (tl.map NotificationOneOf.msg ++ [.status statusOk]) =
            ⟨⟨.AwaitingAlarm, [.msg m], 1, false⟩,
              tl.map NotificationOneOf.msg ++ [.status statusOk], [.alarmDone],
              done.map WireOp.write, false⟩ := by
          simp [applyUser, himpl, post_AN_msg, hinf, htr, hdead]
        rw [hcomp]
        refine Or.inr ⟨rfl, Or.inr (Or.inl ⟨rfl, done, [m], tl, rfl,
          Or.inl ⟨by simpa using hms, rfl, rfl, fun _ => by simp⟩⟩)⟩
    · obtain ⟨hinf, done, pend, rest0, htr, hshape⟩ := hAl
      rcases hshape with ⟨hms, himpl, hscript, _⟩ | ⟨hms, _, himpl, hscript⟩
      · rw [hscript] at hs
        cases rest0 with
        | nil =>
          obtain ⟨rfl, rfl⟩ : NotificationOneOf.status statusOk = n ∧ [] = rest := by
            simpa using hs
          have hcomp : applyUser sys (.status statusOk) [] =
              ⟨⟨.AwaitingAlarm, pend.map NotificationOneOf.msg ++ [.status statusOk], 1, true⟩,
                [], [.alarmDone], done.map WireOp.write, false⟩ := by
            simp [applyUser, himpl, post_Alarm_close, hinf, htr, hdead]
          rw [hcomp]
          exact Or.inr ⟨rfl, Or.inr (Or.inl ⟨rfl, done, pend, [], rfl,
            Or.inr ⟨by simpa using hms, rfl, rfl, rfl⟩⟩)⟩
        | cons m tl =>
          obtain ⟨rfl, rfl⟩ : NotificationOneOf.msg m = n ∧
              tl.map NotificationOneOf.msg ++ [.status statusOk] = rest := by
            simpa using hs
          have hcomp : applyUser sys (.msg m)
              (tl.map NotificationOneOf.msg ++ [.status statusOk]) =
              ⟨⟨.AwaitingAlarm, pend.map NotificationOneOf.msg ++ [.msg m], 1, false⟩,
                tl.map NotificationOneOf.msg ++ [.status statusOk], [.alarmDone],
                done.map WireOp.write, false⟩ := by
            simp [applyUser, himpl, post_Alarm_msg, hinf, htr, hdead]
          rw [hcomp]
          refine Or.inr ⟨rfl, Or.inr (Or.inl ⟨rfl, done, pend ++ [m], tl, rfl,
            Or.inl ⟨by simp [hms], by simp, rfl, fun _ => by simp⟩⟩)⟩
      · rw [hscript] at hs
        cases hs
    · obtain ⟨hinf, done, pend, rest0, htr, hshape⟩ := hW
      rcases hshape with ⟨hms, himpl, hscript, _⟩ | ⟨hms, _, himpl, hscript⟩
      · rw [hscript] at hs
        cases rest0 with
        | nil =>
          obtain ⟨rfl, rfl⟩ : NotificationOneOf.status statusOk = n ∧ [] = rest := by
            simpa using hs
          have hcomp : applyUser sys (.status statusOk) [] =
              ⟨⟨.AwaitingWrite, pend.map NotificationOneOf.msg ++ [.status statusOk], 0, true⟩,
                [], [.writeDone], done.map WireOp.write, false⟩ := by
            simp [applyUser, himpl, post_Write_close, hinf, htr, hdead]
          rw [hcomp]
          exact Or.inr ⟨rfl, Or.inr (Or.inr (Or.inl ⟨rfl, done, pend, [], rfl,
            Or.inr ⟨by simpa using hms, rfl, rfl, rfl⟩⟩))⟩
        | cons m tl =>
          obtain ⟨rfl, rfl⟩ : NotificationOneOf.msg m = n ∧
              tl.map NotificationOneOf.msg ++ [.status statusOk] = rest := by
            simpa using hs
          have hcomp : applyUser sys (.msg m)
              (tl.map NotificationOneOf.msg ++ [.status statusOk]) =
              ⟨⟨.AwaitingWrite, pend.map NotificationOneOf.msg ++ [.msg m], 0, false⟩,
                tl.map NotificationOneOf.msg ++ [.status statusOk], [.writeDone],
                done.map WireOp.write, false⟩ := by
            simp [applyUser, himpl, post_Write_msg, hinf, htr, hdead]
          rw [hcomp]
          refine Or.inr ⟨rfl, Or.inr (Or.inr (Or.inl ⟨rfl, done, pend ++ [m], tl, rfl,
            Or.inl ⟨by simp [hms], by simp, rfl, fun hcon => by simp at hcon⟩⟩))⟩
      · rw [hscript] at hs
        cases hs
    · obtain ⟨_, hscript, _, _⟩ := hF
      rw [hscript] at hs
      cases hs
  | deliver c l₁ l₂ hdead hin =>
    rcases hInv with ⟨hd, _⟩ | ⟨_, hact⟩
    · rw [hdead] at hd; cases hd
    rcases hact with hAN | hAl | hW | hF
    · obtain ⟨_, _, _, _, _, hinf, _⟩ := hAN
      rw [hinf] at hin
      cases l₁ <;> simp at hin
    · obtain ⟨hinf, done, pend, rest0, htr, hshape⟩ := hAl
      rw [hinf] at hin
      obtain ⟨rfl, rfl, rfl⟩ := eq_singleton_decomp hin.symm
      rcases hshape with ⟨hms, himpl, hscript, hne⟩ | ⟨hms, hrest0, himpl, hscript⟩
      · obtain ⟨p, pend', rfl⟩ : ∃ p pend', pend = p :: pend' := by
          cases pend with
          | nil => exact absurd rfl (hne rfl)
          | cons p t => exact ⟨p, t, rfl⟩
        have hcomp : applyDeliver sys .alarmDone ([] ++ []) =
            ⟨⟨.AwaitingWrite, pend'.map NotificationOneOf.msg, 0, false⟩,
              rest0.map NotificationOneOf.msg ++ [.status statusOk], [.writeDone],
              done.map WireOp.write ++ [.write p], false⟩ := by
          simp [applyDeliver, himpl, Completion.flags, onEvent_Alarm_msg, hscript, htr,
            completionsOf]
        rw [hcomp]
        refine Or.inr ⟨rfl, Or.inr (Or.inr (Or.inl ⟨rfl, done ++ [p], pend', rest0, by simp,
          Or.inl ⟨by simp [hms], rfl, rfl, fun hcon => by simp at hcon⟩⟩))⟩
      · cases pend with
        | nil =>
          have hcomp : applyDeliver sys .alarmDone ([] ++ []) =
              ⟨⟨.AwaitingFinish, [], 0, true⟩, [], [.finishDone, .notifyDone],
                done.map WireOp.write ++ [.finish statusOk], false⟩ := by
            simp [applyDeliver, himpl, Completion.flags, onEvent_Alarm_close, hscript, htr,
              completionsOf]
          rw [hcomp]
          refine Or.inr ⟨rfl, Or.inr (Or.inr (Or.inr ⟨rfl, rfl, Or.inl rfl, ?_⟩))⟩
          have : ms = done := by simpa using hms
          simp [this]
        | cons p pend' =>
          have hcomp : applyDeliver sys .alarmDone ([] ++ []) =
              ⟨⟨.AwaitingWrite, pend'.map NotificationOneOf.msg ++ [.status statusOk], 0, true⟩,
                [], [.writeDone], done.map WireOp.write ++ [.write p], false⟩ := by
            simp [applyDeliver, himpl, Completion.flags, onEvent_Alarm_msg, hscript, htr,
              completionsOf]
          rw [hcomp]
          refine Or.inr ⟨rfl, Or.inr (Or.inr (Or.inl ⟨rfl, done ++ [p], pend', [], by simp,
            Or.inr ⟨by simp [hms], rfl, rfl, rfl⟩⟩))⟩
    · obtain ⟨hinf, done, pend, rest0, htr, hshape⟩ := hW
      rw [hinf] at hin
      obtain ⟨rfl, rfl, rfl⟩ := eq_singleton_decomp hin.symm
      rcases hshape with ⟨hms, himpl, hscript, _⟩ | ⟨hms, hrest0, himpl, hscript⟩
      · cases pend with
        | nil =>
          have hcomp : applyDeliver sys .writeDone ([] ++ []) =
              ⟨⟨.AwaitingNotifications, [], 0, false⟩,
                rest0.map NotificationOneOf.msg ++ [.status statusOk], [],
                done.map WireOp.write, false⟩ := by
            simp [applyDeliver, himpl, Completion.flags, onEvent_Write_empty, hscript, htr,
              completionsOf]
          rw [hcomp]
          exact Or.inr ⟨rfl, Or.inl ⟨done, rest0, by simpa using hms, rfl, rfl, rfl, rfl⟩⟩
        | cons p pend' =>
          have hcomp : applyDeliver sys .writeDone ([] ++ []) =
              ⟨⟨.AwaitingWrite, pend'.map NotificationOneOf.msg, 0, false⟩,
                rest0.map NotificationOneOf.msg ++ [.status statusOk], [.writeDone],
                done.map WireOp.write ++ [.write p], false⟩ := by
            simp [applyDeliver, himpl, Completion.flags, onEvent_Write_msg, hscript, htr,
              completionsOf]
          rw [hcomp]
          refine Or.inr ⟨rfl, Or.inr (Or.inr (Or.inl ⟨rfl, done ++ [p], pend', rest0, by simp,
            Or.inl ⟨by simp [hms], rfl, rfl, fun hcon => by simp at hcon⟩⟩))⟩
      · cases pend with
        | nil =>
          have hcomp : applyDeliver sys .writeDone ([] ++ []) =
              ⟨⟨.AwaitingFinish, [], 0, true⟩, [], [.finishDone, .notifyDone],
                done.map WireOp.write ++ [.finish statusOk], false⟩ := by
            simp [applyDeliver, himpl, Completion.flags, onEvent_Write_close, hscript, htr,
              completionsOf]
          rw [hcomp]
          refine Or.inr ⟨rfl, Or.inr (Or.inr (Or.inr ⟨rfl, rfl, Or.inl rfl, ?_⟩))⟩
          have : ms = done := by simpa using hms
          simp [this]
        | cons p pend' =>
          have hcomp : applyDeliver sys .writeDone ([] ++ []) =
              ⟨⟨.AwaitingWrite, pend'.map NotificationOneOf.msg ++ [.status statusOk], 0, true⟩,
                [], [.writeDone], done.map WireOp.write ++ [.write p], false⟩ := by
            simp [applyDeliver, himpl, Completion.flags, onEvent_Write_msg, hscript, htr,
              completionsOf]
          rw [hcomp]
          refine Or.inr ⟨rfl, Or.inr (Or.inr (Or.inl ⟨rfl, done ++ [p], pend', [], by simp,
            Or.inr ⟨by simp [hms], rfl, rfl, rfl⟩⟩))⟩
    · obtain ⟨himpl, hscript, hinfd, htr⟩ := hF
      rcases hinfd with hinf2 | hinf2
      · rw [hinf2] at hin
        rcases eq_pair_decomp hin.symm with ⟨rfl, rfl, rfl⟩ | ⟨rfl, rfl, rfl⟩
        · have hcomp : applyDeliver sys .finishDone ([] ++ [.notifyDone]) =
              ⟨⟨.AwaitingFinish, [], 0, true⟩, [], [.notifyDone],
                ms.map WireOp.write ++ [.finish statusOk], true⟩ := by
            simp [applyDeliver, himpl, Completion.flags, onEvent_Finish_done, hscript, htr,
              completionsOf]
          rw [hcomp]
          exact Or.inl ⟨rfl, rfl⟩
        · have hcomp : applyDeliver sys .notifyDone ([.finishDone] ++ []) =
              ⟨⟨.AwaitingFinish, [], 0, true⟩, [], [.finishDone],
                ms.map WireOp.write ++ [.finish statusOk], false⟩ := by
            simp [applyDeliver, himpl, Completion.flags, kAsyncNotifyWhenDoneTag,
              onEvent_Finish_notify, hscript, htr, completionsOf]
          rw [hcomp]
          exact Or.inr ⟨rfl, Or.inr (Or.inr (Or.inr ⟨rfl, rfl, Or.inr rfl, rfl⟩))⟩
      · rw [hinf2] at hin
        obtain ⟨rfl, rfl, rfl⟩ := eq_singleton_decomp hin.symm
        have hcomp : applyDeliver sys .finishDone ([] ++ []) =
            ⟨⟨.AwaitingFinish, [], 0, true⟩, [], [],
              ms.map WireOp.write ++ [.finish statusOk], true⟩ := by
          simp [applyDeliver, himpl, Completion.flags, onEvent_Finish_done, hscript, htr,
            completionsOf]
        rw [hcomp]
        exact Or.inl ⟨rfl, rfl⟩

lemma sysReachable_inv (ms : List Nat) {sys : Sys} (h : SysReachable ms sys) :
    SysInv ms sys := by
  unfold SysReachable at h
  induction h with
  | refl => exact Or.inr ⟨rfl, Or.inl ⟨[], ms, by simp, rfl, rfl, rfl, rfl⟩⟩
  | tail _ hstep ih => exact sysStep_preserves ih hstep

/-- Claim **C2.** Stream FIFO: in any interleaving of user pushes
`push m_1, …, push m_n` followed by `close(OK)` with completion deliveries —
all delivered with `ok = true` and without cancellation — when the FSM
self-destroys, the trace of `stream_writer` calls is exactly
`Write m_1, …, Write m_n` followed by a single `Finish` with status OK. -/
theorem server_stream_fifo (ms : List Nat) (sys : Sys)
    (hreach : SysReachable ms sys) (hdead : sys.dead = true) :
    sys.trace = ms.map WireOp.write ++ [WireOp.finish statusOk] := by
  rcases sysReachable_inv ms hreach with ⟨_, htr⟩ | ⟨hlive, _⟩
  · exact htr
  · rw [hdead] at hlive
    cases hlive

/-- Final configuration of the concrete run witnessing `server_stream_fifo`. -/
def c2WitnessSys : Sys :=
  ⟨⟨.AwaitingFinish, [], 0, true⟩, [], [], [.write 5, .finish statusOk], true⟩

/-- Witness for `server_stream_fifo`: a complete run pushing message `5` and
closing with OK. -/
theorem server_stream_fifo_witness :
    (SysReachable [5] c2WitnessSys ∧ c2WitnessSys.dead = true) ∧
      c2WitnessSys.trace = [5].map WireOp.write ++ [WireOp.finish statusOk] := by
  have chain : SysReachable [5] c2WitnessSys := by
    unfold SysReachable
    refine Relation.ReflTransGen.head
      (SysStep.user _ (.msg 5) [.status statusOk] rfl rfl) ?_
    refine Relation.ReflTransGen.head
      (SysStep.user _ (.status statusOk) [] rfl rfl) ?_
    refine Relation.ReflTransGen.head
      (SysStep.deliver _ .alarmDone [] [] rfl rfl) ?_
    refine Relation.ReflTransGen.head
      (SysStep.deliver _ .writeDone [] [] rfl rfl) ?_
    refine Relation.ReflTransGen.head
      (SysStep.deliver _ .notifyDone [.finishDone] [] rfl rfl) ?_
    refine Relation.ReflTransGen.head
      (SysStep.deliver _ .finishDone [] [] rfl rfl) ?_
    exact Relation.ReflTransGen.refl
  exact ⟨⟨chain, rfl⟩, server_stream_fifo [5] c2WitnessSys chain rfl⟩

/-! ## Client common types (client/Common.h, detail/CallContext.h) -/

/-- Source `grpcfy::client::ClientState`. -/
inductive ClientState
  | Running
  | Standby
deriving DecidableEq

/-- Source `CallContext::Aliveness`. -/
inductive Aliveness
  | Alive
  | Dead
deriving DecidableEq

/-- Source `grpcfy::client::ServerStreamRelaunchPolicy`. -/
inductive ServerStreamRelaunchPolicy
  | Relaunch
  | Shutdown
deriving DecidableEq

/-! ## Client stream FSM (detail/ServerStreamCallContext.h) -/

/-- Members of `ServerStreamContext` relevant to `on_finished`. RPC contexts
and callbacks are identified by ids; messages by `Nat` payloads. -/
structure ServerStreamContext where
  request : Nat
  ctx : Nat
  status : GrpcStatus
  session_id : String
  deadline : Nat
  reconnect_policy : ServerStreamRelaunchPolicy
  callback : Nat
deriving DecidableEq

/-- Engine interaction performed by `on_finished`: either deliver the final
status to the callback and `client->cleanup_stream(session_id)`, or hand a
clone to `client->relaunch_stream`. -/
inductive FinishEffect
  | finishAndCleanup (cbStatus : GrpcStatus) (sid : String)
  | relaunch (clone : ServerStreamContext)
deriving DecidableEq

/-- Source `ServerStreamContext::on_finished(client_state)`; `newCtx` is the
identity of the freshly allocated `grpc::ClientContext` passed to the clone
(`std::make_shared<grpc::ClientContext>()`), whose status member is
default-constructed (OK). -/
def on_finished (c : ServerStreamContext) (client_state : ClientState) (newCtx : Nat) :
    FinishEffect × Aliveness :=
  let should_relaunch :=
    client_state == ClientState.Running
      && c.reconnect_policy == ServerStreamRelaunchPolicy.Relaunch
      && c.status.code != kCancelledCode
  if !should_relaunch then
    (.finishAndCleanup c.status c.session_id, .Dead)
  else
    (.relaunch ⟨c.request, newCtx, statusOk, c.session_id, c.deadline, c.reconnect_policy,
      c.callback⟩, .Dead)

/-- Claim **C5.** On the finish completion of a client stream FSM: if the client is
not Running, or the policy is Shutdown, or the final status code is
CANCELLED, the callback receives the final status, the engine is asked to
remove the session entry and the FSM dies; otherwise a clone with a fresh
RPC context but the same request, callback, session id, deadline and policy
is handed to the engine for reconnect scheduling, and the FSM dies. -/
theorem client_stream_on_finished (c : ServerStreamContext) (cs : ClientState) (newCtx : Nat) :
    (cs ≠ .Running ∨ c.reconnect_policy = .Shutdown ∨ c.status.code = kCancelledCode →
      on_finished c cs newCtx = (.finishAndCleanup c.status c.session_id, .Dead))
    ∧ (cs = .Running → c.reconnect_policy = .Relaunch → c.status.code ≠ kCancelledCode →
      on_finished c cs newCtx =
        (.relaunch ⟨c.request, newCtx, statusOk, c.session_id, c.deadline,
          c.reconnect_policy, c.callback⟩, .Dead)) := by
  constructor
  · intro hstop
    have hsr : (cs == ClientState.Running
        && c.reconnect_policy == ServerStreamRelaunchPolicy.Relaunch
        && c.status.code != kCancelledCode) = false := by
      rcases hstop with h | h | h
      · simp [beq_eq_false_iff_ne.mpr h]
      · cases hpol : c.reconnect_policy
        · rw [hpol] at h; cases h
        · simp
      · simp [h]
    simp [on_finished, hsr]
  · intro h1 h2 h3
    have hsr : (cs == ClientState.Running
        && c.reconnect_policy == ServerStreamRelaunchPolicy.Relaunch
        && c.status.code != kCancelledCode) = true := by
      simp [h1, h2, h3]
    simp [on_finished, hsr]

/-- Witness for `client_stream_on_finished`: a Shutdown-policy stream stops,
a Relaunch-policy stream with an ABORTED status clones and reconnects. -/
theorem client_stream_on_finished_witness :
    on_finished ⟨7, 0, ⟨2, "boom"⟩, "sid", 5, .Shutdown, 3⟩ .Running 1 =
        (.finishAndCleanup ⟨2, "boom"⟩ "sid", .Dead)
    ∧ on_finished ⟨7, 0, ⟨2, "boom"⟩, "sid", 5, .Relaunch, 3⟩ .Running 1 =
        (.relaunch ⟨7, 1, statusOk, "sid", 5, .Relaunch, 3⟩, .Dead) :=
  ⟨(client_stream_on_finished ⟨7, 0, ⟨2, "boom"⟩, "sid", 5, .Shutdown, 3⟩ .Running 1).1
      (Or.inr (Or.inl rfl)),
   (client_stream_on_finished ⟨7, 0, ⟨2, "boom"⟩, "sid", 5, .Relaunch, 3⟩ .Running 1).2
      rfl rfl (by decide)⟩

/-! ## Client singular FSM (detail/SingularCallContext.h) -/

/-- Source `SingularCall::Result = variant<Response, Status>`. -/
inductive SingularResult
  | response (r : Nat)
  | status (s : GrpcStatus)
deriving DecidableEq

/-- Source `SingularCallContext::on_event`: builds the result from `ok` and the
received status, invokes the callback with `Summary{request, result}`, and
reports Dead. -/
def singular_on_event (request response : Nat) (status : GrpcStatus) (ok : Bool) :
    (Nat × SingularResult) × Aliveness :=
  let result := if !ok || !status.isOk then SingularResult.status status
                else SingularResult.response response
  ((request, result), .Dead)

/-- Claim **C6.** A client singular call's sole completion invokes the callback
with the response when `ok` holds and the status is OK, and with the status
otherwise; in both cases the FSM reports Dead. -/
theorem singular_call_on_event (request response : Nat) (status : GrpcStatus) (ok : Bool) :
    (ok = true → status.isOk = true →
      singular_on_event request response status ok =
        ((request, .response response), .Dead))
    ∧ (ok = false ∨ status.isOk = false →
      singular_on_event request response status ok =
        ((request, .status status), .Dead)) := by
  constructor
  · intro hok hst
    simp [singular_on_event, hok, hst]
  · intro h
    rcases h with h | h <;> simp [singular_on_event, h]

/-- Witness for `singular_call_on_event` at both branches. -/
theorem singular_call_on_event_witness :
    singular_on_event 4 9 statusOk true = ((4, .response 9), .Dead)
    ∧ singular_on_event 4 9 ⟨5, "err"⟩ true = ((4, .status ⟨5, "err"⟩), .Dead) :=
  ⟨(singular_call_on_event 4 9 statusOk true).1 rfl rfl,
   (singular_call_on_event 4 9 ⟨5, "err"⟩ true).2 (Or.inr rfl)⟩

/-! ## Client engine run (ClientEngine.h) -/

/-- Engine state touched by `ClientEngine::run`: the `state` member and the
number of completion-queue workers posted so far. -/
structure EngineState where
  state : ClientState
  workers : Nat
deriving DecidableEq

/-- Source `ClientEngine::run`: the strand closure checks
`ClientState::Running == self->state` and returns early without touching the
promise; otherwise it flips the state, posts the `processEvents` worker and
sets the promise. The caller then blocks in `future.get()`, which returns
normally only when the promise was set (an abandoned promise makes it throw
`std::future_error`, and `run` is `noexcept`). Result: new engine state,
whether a worker was posted, whether `run` returns normally. -/
def engineRun (e : EngineState) : EngineState × Bool × Bool :=
  if e.state == ClientState.Running then (e, false, false)
  else (⟨ClientState.Running, e.workers + 1⟩, true, true)

/-- Claim **C7 counterexample.** The claim says a second `run` call while the
engine is already Running "returns normally"; in the code the strand closure
returns without fulfilling the promise, so `future.get()` does not return
normally (broken promise inside a `noexcept` function). -/
theorem clientEngine_run_counterexample :
    ¬ ((engineRun ⟨.Running, 1⟩).snd.snd = true) := by decide

/-- Claim **C7 (amended).** `run` is one-shot: a first call transitions Standby to
Running and posts the completion-queue worker exactly once, fulfilling the
promise (normal return); a later call while Running changes no state and
posts no second worker, but leaves the promise unfulfilled, so it does not
return normally. -/
theorem clientEngine_run_one_shot (e : EngineState) :
    (e.state = .Standby → engineRun e = (⟨.Running, e.workers + 1⟩, true, true))
    ∧ (e.state = .Running → engineRun e = (e, false, false)) := by
  constructor
  · intro h
    simp [engineRun, h]
  · intro h
    simp [engineRun, h]

/-- Witness for `clientEngine_run_one_shot` on a standby and a running
engine. -/
theorem clientEngine_run_one_shot_witness :
    engineRun ⟨.Standby, 0⟩ = (⟨.Running, 1⟩, true, true)
    ∧ engineRun ⟨.Running, 1⟩ = (⟨.Running, 1⟩, false, false) :=
  ⟨(clientEngine_run_one_shot ⟨.Standby, 0⟩).1 rfl,
   (clientEngine_run_one_shot ⟨.Running, 1⟩).2 rfl⟩

/-! ## Client options (Options.h) -/

/-- Source `Options` members touched by the setters under scrutiny: the credentials
pointer (`none` models nullptr; a `some` id identifies the object) and the
two size limits (`std::optional<int>`, `none` models unlimited). -/
structure OptionsModel where
  credentials : Option Nat
  request_size_limit_bytes : Option Int
  response_size_limit_bytes : Option Int
deriving DecidableEq

/-- State after `Options{address}`: `grpc::InsecureChannelCredentials()`
(non-null, identity 0) and `std::mega::num * 32` byte limits. -/
def optionsDefault : OptionsModel :=
  ⟨some 0, some (1000000 * 32), some (1000000 * 32)⟩

/-- Source `Options::set_credentials(creds)`: the source tests `if(!credentials)` —
the member, not the argument — and then stores the argument. -/
def set_credentials (o : OptionsModel) (creds : Option Nat) : Except String OptionsModel :=
  if o.credentials = none then .error "null credentials"
  else .ok { o with credentials := creds }

/-- Source `limit && *limit <= 0`. -/
def nonPositiveLimit : Option Int → Bool
  | some v => v ≤ 0
  | none => false

/-- Source `Options::set_request_size_limit_bytes`. -/
def set_request_size_limit_bytes (o : OptionsModel) (limit : Option Int) :
    Except String OptionsModel :=
  if nonPositiveLimit limit then .error "limit should be positive"
  else .ok { o with request_size_limit_bytes := limit }

/-- Source `Options::set_response_size_limit_bytes`: validates positivity, then the
source assigns `request_size_limit_bytes = limit`. -/
def set_response_size_limit_bytes (o : OptionsModel) (limit : Option Int) :
    Except String OptionsModel :=
  if nonPositiveLimit limit then .error "limit should be positive"
  else .ok { o with request_size_limit_bytes := limit }

/-- Claim **C8.** Evaluating the embedded `set_credentials` at the claim's failing
input: on a freshly constructed `Options`, a null argument is accepted —
no exception is thrown (the guard reads the non-null member) and the stored
credentials become null, contrary to the claim and the source's own
`@throws` documentation. -/
theorem set_credentials_null_accepted :
    set_credentials optionsDefault none =
      .ok ⟨none, some (1000000 * 32), some (1000000 * 32)⟩ := rfl

/-- Claim **C9.** Evaluating the embedded `set_response_size_limit_bytes` at the
claim's failing input: a positive limit `7` lands in
`request_size_limit_bytes` while `response_size_limit_bytes` keeps its
default — the converse of the claim and of the source's own documentation. -/
theorem set_response_limit_sets_request :
    set_response_size_limit_bytes optionsDefault (some 7) =
      .ok ⟨some 0, some 7, some (1000000 * 32)⟩ := rfl

/-! ## shutdownServerStream (ClientEngine.h) -/

/-- Observable action of `ServerStreamEntry::cancel()` (reconnect-timer
cancel plus `context->TryCancel()`), keyed by the session erased. -/
inductive ShutdownAction
  | cancelEntry (sid : String)
deriving DecidableEq

/-- Source `ClientEngine::doShutdownServerStream`: look the session id up in
`server_stream_contexts`; absent → return; present → cancel the entry and
erase it. The map is an association list keyed by session id (entries are
ids). -/
def doShutdownServerStream (m : List (String × Nat)) (sid : String) :
    List (String × Nat) × List ShutdownAction :=
  match m.find? (fun p => p.fst == sid) with
  | none => (m, [])
  | some _ => (m.eraseP (fun p => p.fst == sid), [.cancelEntry sid])

/-- Source `ClientEngine::shutdownServerStream`: the posted closure no-ops unless
the engine is Running. -/
def shutdownServerStream (state : ClientState) (m : List (String × Nat)) (sid : String) :
    List (String × Nat) × List ShutdownAction :=
  if state == ClientState.Running then doShutdownServerStream m sid else (m, [])

/-- Claim **C10.** On a Running engine, `shutdownServerStream` with a (nonempty)
session id that has no live entry is a no-op: the session map is unchanged
and no entry is cancelled — hence no RPC context cancellation, no timer
cancellation, and no callback. -/
theorem shutdown_absent_session_noop (m : List (String × Nat)) (sid : String)
    (hne : sid ≠ "") (habs : ∀ e ∈ m, e.fst ≠ sid) :
    shutdownServerStream .Running m sid = (m, []) := by
  have hfind : m.find? (fun p => p.fst == sid) = none := by
    rw [List.find?_eq_none]
    intro x hx
    simpa using habs x hx
  simp [shutdownServerStream, doShutdownServerStream, hfind]

/-- Witness for `shutdown_absent_session_noop` on a one-entry map. -/
theorem shutdown_absent_session_noop_witness :
    ("b" ≠ "" ∧ ∀ e ∈ [("a", 1)], Prod.fst e ≠ "b") ∧
      shutdownServerStream .Running [("a", 1)] "b" = ([("a", 1)], []) :=
  ⟨⟨by decide, by decide⟩,
   shutdown_absent_session_noop [("a", 1)] "b" (by decide) (by decide)⟩

end Grpcfy
